import Mathlib

/-!
Verification of the scene-matching core of the `sculptor_back` repository
(`src/smart_matcher.py`, class `SmartMatcher`).

The numpy float arrays of the source are modelled over `ℚ` (the claims under
study concern control flow, comparisons and exact additive constants, not
floating-point rounding), except for the vector-normalisation helper, which
divides by a Euclidean norm and is therefore modelled over `ℝ`.

Frames are identified by their index in the sorted `frame_files` list; the
source keys its usage dictionaries by `frame_files[real_idx].name`, and since
the files of one directory listing have pairwise distinct names, name-keyed
dictionaries are equivalent to index-keyed ones.
-/

namespace SmartMatcher

/-- Embedding vectors (`np.ndarray` rows) modelled as rational lists. -/
abbrev Vec := List ℚ

/-- Row dot product, modelling one entry of `pool_embeddings @ text_emb`. -/
def dot (a b : Vec) : ℚ := (List.zipWith (fun x y => x * y) a b).sum

/-- Source: `self.max_frame_usage = 3`. -/
def max_frame_usage : Nat := 3

/-- Source: `self.top_candidates_pool = 5`. -/
def top_candidates_pool : Nat := 5

/-- Source: `self.continuity_bonus = 0.05`. -/
def continuity_bonus : ℚ := 5 / 100

/-- Source: `self.scene_continuity_window = 48`. -/
def scene_continuity_window : Nat := 48

/-- Mutable state of a `SmartMatcher` instance: `self.active_character`,
`self.frame_usage_count`, `self.frame_last_used_at` (dictionaries modelled as
`Nat → Option Nat`, `none` meaning the key is absent) and
`self.last_selected_frame_idx`. -/
structure MatcherState where
  activeCharacter : Option String
  frameUsageCount : Nat → Option Nat
  frameLastUsedAt : Nat → Option Nat
  lastSelectedFrameIdx : Option Nat

/-- The state set up by `SmartMatcher.__init__`: empty dictionaries, no active
character, no last-selected frame. -/
def initialState : MatcherState :=
  { activeCharacter := none
    frameUsageCount := fun _ => none
    frameLastUsedAt := fun _ => none
    lastSelectedFrameIdx := none }

/-- Step 1 of `find_best_match_with_rotation`:
`base_scores = pool_embeddings @ text_emb`. -/
def base_scores (poolEmbeddings : List Vec) (textEmb : Vec) : List ℚ :=
  poolEmbeddings.map (fun e => dot e textEmb)

/-- Source: `dist = abs(real_idx - self.last_selected_frame_idx)`. -/
def continuity_dist (realIdx last : Nat) : Nat :=
  (Int.ofNat realIdx - Int.ofNat last).natAbs

/-- Step 2 of `find_best_match_with_rotation`: the continuity bonus.  When a
last-selected frame exists, every pool entry whose distance `dist` to it
satisfies `5 < dist < self.scene_continuity_window` gets
`self.continuity_bonus` added to its base score. -/
def final_scores (lastSelected : Option Nat) (poolIndices : List Nat)
    (bscores : List ℚ) : List ℚ :=
  match lastSelected with
  | none => bscores
  | some last =>
      (List.zip poolIndices bscores).map (fun p =>
        if 5 < continuity_dist p.1 last ∧
            continuity_dist p.1 last < scene_continuity_window then
          p.2 + continuity_bonus
        else p.2)

/-- Step 3 of `find_best_match_with_rotation`:
`dynamic_cooldown = max(5, min(20, pool_size // 10))`. -/
def dynamic_cooldown (poolSize : Nat) : Nat := max 5 (min 20 (poolSize / 10))

/-- Source: `self.frame_usage_count.get(frame_name, 0)`. -/
def usage_val (s : MatcherState) (i : Nat) : Nat := (s.frameUsageCount i).getD 0

/-- Source: `self.frame_last_used_at.get(frame_name, -999)`. -/
def last_used_val (s : MatcherState) (i : Nat) : Int :=
  match s.frameLastUsedAt i with
  | none => -999
  | some l => Int.ofNat l

/-- The candidate filter of step 4: a frame is kept unless
`usage_count >= self.max_frame_usage` or
`(current_chunk_idx - last_used) < dynamic_cooldown`. -/
def survives (s : MatcherState) (cooldown : Nat) (currentChunkIdx : Nat)
    (realIdx : Nat) : Bool :=
  decide (usage_val s realIdx < max_frame_usage) &&
    decide ((Int.ofNat cooldown) ≤ Int.ofNat currentChunkIdx - last_used_val s realIdx)

/-- Stable insertion of index `i` into an already argsorted index list:
`i` goes before the first index whose score is at least its own. -/
def insertAsc (fs : List ℚ) (i : Nat) : List Nat → List Nat
  | [] => [i]
  | j :: rest =>
      if fs.getD i 0 ≤ fs.getD j 0 then i :: j :: rest else j :: insertAsc fs i rest

/-- `np.argsort(final_scores)`: the indices `0 .. len-1` sorted by ascending
score.  numpy sorts small index ranges by insertion sort, which is stable, so
equal scores keep ascending index order; modelled as a stable insertion sort. -/
def argsort (fs : List ℚ) : List Nat :=
  (List.range fs.length).foldr (insertAsc fs) []

/-- Source: `sorted_indices = np.argsort(final_scores)[::-1]`. -/
def sorted_indices (fs : List ℚ) : List Nat := (argsort fs).reverse

/-- The pool positions that make it into `candidates` in step 4: the survivors
of the usage/cooldown filter, in `sorted_indices` order, cut off as soon as
`self.top_candidates_pool` of them have been collected. -/
def ranked_positions (fs : List ℚ) (s : MatcherState) (cooldown : Nat)
    (currentChunkIdx : Nat) (poolIndices : List Nat) : List Nat :=
  ((sorted_indices fs).filter
      (fun p => survives s cooldown currentChunkIdx (poolIndices.getD p 0))).take
    top_candidates_pool

/-- The `candidates` list of step 4, each entry carrying its `real_idx` and its
final score (the `frame_name` field of the source is determined by `real_idx`). -/
def candidates_of (fs : List ℚ) (s : MatcherState) (cooldown : Nat)
    (currentChunkIdx : Nat) (poolIndices : List Nat) : List (Nat × ℚ) :=
  (ranked_positions fs s cooldown currentChunkIdx poolIndices).map
    (fun p => (poolIndices.getD p 0, fs.getD p 0))

/-- Source line 258: `weights = [c['score'] for c in candidates]` — no clamping. -/
def sampling_weights (cands : List (Nat × ℚ)) : List ℚ := cands.map (fun c => c.2)

/-- Helper for `np.argmax`: scans the remaining list keeping the index of the
first strictly-largest value seen so far, together with that value. -/
def argmax_go (best : Nat) (bestVal : ℚ) (i : Nat) : List ℚ → Nat × ℚ
  | [] => (best, bestVal)
  | x :: xs => if bestVal < x then argmax_go i x (i + 1) xs else argmax_go best bestVal (i + 1) xs

/-- `np.argmax(final_scores)`: index of the first maximal entry. -/
def argmax (l : List ℚ) : Nat :=
  match l with
  | [] => 0
  | x :: xs => (argmax_go 0 x 1 xs).1

/-- Step 6 of `find_best_match_with_rotation`: commit the chosen frame —
increment its usage count, record the chunk index it was used at, and point
`last_selected_frame_idx` at it. -/
def commit_choice (s : MatcherState) (realIdx chunkIdx : Nat) : MatcherState :=
  { s with
    frameUsageCount := fun j =>
      if j = realIdx then some ((s.frameUsageCount realIdx).getD 0 + 1)
      else s.frameUsageCount j
    frameLastUsedAt := fun j =>
      if j = realIdx then some chunkIdx else s.frameLastUsedAt j
    lastSelectedFrameIdx := some realIdx }

/-- Outcome of one selection: the chosen `real_idx`, its score, and whether it
came from the exhaustion fallback branch (`candidates` empty). -/
structure Choice where
  realIdx : Nat
  score : ℚ
  viaFallback : Bool

/-- `find_best_match_with_rotation` (steps 1–6).  `pick` is the randomness
oracle: `random.choices` returns some element of `candidates`, modelled as the
element at position `pick % len`.  `random.choices` first raises `ValueError`
when the weights total is not positive, modelled by `none`; `np.argmax` on an
empty array also raises, modelled by `none`.  On `none` the source raises
before the commit in step 6, so the state is not updated. -/
def find_best_match_with_rotation (pick : Nat) (s : MatcherState) (textEmb : Vec)
    (poolEmbeddings : List Vec) (poolIndices : List Nat) (currentChunkIdx : Nat) :
    Option (Choice × MatcherState) :=
  let bscores := base_scores poolEmbeddings textEmb
  let fscores := final_scores s.lastSelectedFrameIdx poolIndices bscores
  let cooldown := dynamic_cooldown poolIndices.length
  let cands := candidates_of fscores s cooldown currentChunkIdx poolIndices
  if cands.isEmpty then
    if fscores.isEmpty then none
    else
      let b := argmax fscores
      let c : Choice := ⟨poolIndices.getD b 0, fscores.getD b 0, true⟩
      some (c, commit_choice s c.realIdx currentChunkIdx)
  else
    if (sampling_weights cands).sum ≤ 0 then none
    else
      let ch := cands.getD (pick % cands.length) (0, 0)
      let c : Choice := ⟨ch.1, ch.2, false⟩
      some (c, commit_choice s c.realIdx currentChunkIdx)

/-- The final score vector computed by steps 1–2 of
`find_best_match_with_rotation` (an abbreviation for stating theorems; it is
definitionally the `final_scores` value used inside the selector). -/
def selector_scores (s : MatcherState) (textEmb : Vec) (poolEmbeddings : List Vec)
    (poolIndices : List Nat) : List ℚ :=
  final_scores s.lastSelectedFrameIdx poolIndices (base_scores poolEmbeddings textEmb)

/-- The strict order in which `sorted_indices` ranks pool positions: `a` before
`b` when `a`'s score is larger, or the scores are equal and `a` is the larger
pool position (`np.argsort` is stable ascending, and the `[::-1]` reversal
turns ascending ties into descending ones). -/
def rank_before (fs : List ℚ) (a b : Nat) : Prop :=
  fs.getD b 0 < fs.getD a 0 ∨ (fs.getD a 0 = fs.getD b 0 ∧ b < a)

/-- Kind of context decision taken by `get_search_pool`, corresponding to the
four context strings of the source. -/
inductive ContextKind where
  | chSwitch
  | chConfirm
  | chHold
  | noContext
deriving DecidableEq

/-- Diagnostic label of `get_search_pool`: its kind plus whether the
`" (пул пуст -> fallback)"` annotation was appended. -/
structure ContextLabel where
  kind : ContextKind
  poolEmptyFallback : Bool
deriving DecidableEq

/-- `extract_character_names`.  The regex word-boundary search
`re.search(r'\b' + re.escape(name) + r'\b', text_lower)` is the opaque text
primitive; a segment's text is represented by the Boolean function `matches`
it induces on lowercase surface strings.  First every translation-table entry
is scanned in table order, then every canonical name directly (lowercased),
collecting canonical names in first-match order without duplicates. -/
def extract_character_names (translations : List (String × String))
    (textMatches : String → Bool) (known : List String) : List String :=
  let found := translations.foldl
    (fun found p =>
      if textMatches p.1 && known.contains p.2 && !(found.contains p.2) then
        found ++ [p.2]
      else found)
    []
  known.foldl
    (fun found c =>
      if textMatches c.toLower && !(found.contains c) then found ++ [c] else found)
    found

/-- `get_search_pool`, with the active-character state passed in and the new
active character returned (the source mutates `self.active_character`).
Returns `(pool, label, newActiveCharacter)`. -/
def get_search_pool (translations : List (String × String))
    (textMatches : String → Bool) (characterMap : List (String × List Nat))
    (allSceneIds : List Nat) (active : Option String) :
    List Nat × ContextLabel × Option String :=
  let known := (characterMap.map Prod.fst).filter (fun c => c ≠ "none")
  let mentioned := extract_character_names translations textMatches known
  let ak : Option String × ContextKind :=
    match mentioned with
    | c :: _ =>
        if some c = active then (some c, ContextKind.chConfirm)
        else (some c, ContextKind.chSwitch)
    | [] =>
        match active with
        | some c => (some c, ContextKind.chHold)
        | none => (none, ContextKind.noContext)
  match ak.1 with
  | some c =>
      let pool := (characterMap.lookup c).getD []
      if pool.isEmpty then (allSceneIds, ⟨ak.2, true⟩, ak.1)
      else (pool, ⟨ak.2, false⟩, ak.1)
  | none => (allSceneIds, ⟨ak.2, false⟩, ak.1)

/-- One narration segment as consumed by the matching loop: its text (as the
match function it induces, see `extract_character_names`) and its text
embedding, one row of `self.model.encode(texts)`. -/
structure Segment where
  textMatches : String → Bool
  emb : Vec

/-- The fully-materialised inputs of `match_audio_to_frames` after the data
loading and validation steps: the (post-normalisation) frame embeddings, the
`scene_id -> index` dictionary built from the frame file names, its key list
`all_scene_ids`, the validated character map, and the name-translation table. -/
structure RunInputs where
  frameEmbeddings : List Vec
  sceneIdToIdx : Nat → Option Nat
  allSceneIds : List Nat
  characterMap : List (String × List Nat)
  translations : List (String × String)

/-- One entry of the `results` list (`frame_index`, `similarity_score`,
`chunk_index`, `search_pool_size`), plus the ghost flag recording whether the
exhaustion fallback produced the pick. -/
structure MatchResult where
  frameIndex : Nat
  score : ℚ
  chunkIndex : Nat
  poolSize : Nat
  viaFallback : Bool

/-- One iteration of the matching loop of `match_audio_to_frames`: resolve the
search pool, filter it down to embedding indices (falling back to all frames
when empty), and run `find_best_match_with_rotation`.  On failure the state
with the already-committed active character is returned (the source mutates
`self.active_character` before the failing call). -/
def match_step (pick : Nat) (inp : RunInputs) (seg : Segment) (chunkIdx : Nat)
    (s : MatcherState) : Option MatchResult × MatcherState :=
  let gsp := get_search_pool inp.translations seg.textMatches inp.characterMap
    inp.allSceneIds s.activeCharacter
  let s1 := { s with activeCharacter := gsp.2.2 }
  let poolIndices0 := gsp.1.filterMap inp.sceneIdToIdx
  let poolIndices :=
    if poolIndices0.isEmpty then List.range inp.frameEmbeddings.length
    else poolIndices0
  let poolEmbeddings := poolIndices.map (fun i => inp.frameEmbeddings.getD i [])
  match find_best_match_with_rotation pick s1 seg.emb poolEmbeddings poolIndices
      chunkIdx with
  | none => (none, s1)
  | some (c, s2) =>
      (some ⟨c.realIdx, c.score, chunkIdx, poolIndices.length, c.viaFallback⟩, s2)

/-- The matching loop over all segments, threading the matcher state and the
0-based chunk index; a failing step aborts the run with no result list. -/
def match_loop (picks : Nat → Nat) (inp : RunInputs) :
    List Segment → Nat → MatcherState → Option (List MatchResult) × MatcherState
  | [], _, s => (some [], s)
  | seg :: rest, idx, s =>
      match match_step (picks idx) inp seg idx s with
      | (none, s1) => (none, s1)
      | (some r, s2) =>
          match match_loop picks inp rest (idx + 1) s2 with
          | (none, sF) => (none, sF)
          | (some rs, sF) => (some (r :: rs), sF)

/-- `match_audio_to_frames`, from the point where all inputs are materialised.
With an empty embedding index the source raises `IndexError` at
`np.linalg.norm(frame_embeddings[0])` before any segment is processed and
before any state mutation — the `EmptyCandidatePool` condition of the design —
modelled by `(none, s0)`. -/
def match_audio_to_frames (picks : Nat → Nat) (inp : RunInputs)
    (segments : List Segment) (s0 : MatcherState) :
    Option (List MatchResult) × MatcherState :=
  if inp.frameEmbeddings.isEmpty then (none, s0)
  else match_loop picks inp segments 0 s0

/-- How many entries of a result list picked frame `i`
(`chosen_scene_id` occurrence count). -/
def times_chosen (i : Nat) (rs : List MatchResult) : Nat :=
  (rs.filter (fun r => r.frameIndex == i)).length

/-- Normalisation helper `normalize_vector`, over `ℝ` because of the Euclidean
norm: `vec / norm if norm > 0 else vec` with `norm = np.linalg.norm(vec)`. -/
noncomputable def normalize_vector (v : List ℝ) : List ℝ :=
  if 0 < Real.sqrt ((v.map (fun x => x ^ 2)).sum) then
    v.map (fun x => x / Real.sqrt ((v.map (fun y => y ^ 2)).sum))
  else v

/-- A matcher state in which frame `0` has reached the usage cap. -/
def cappedState : MatcherState :=
  { initialState with frameUsageCount := fun j => if j = 0 then some 3 else none }

/-- A run input with no scenes indexed at all. -/
def emptyIndexInputs : RunInputs :=
  { frameEmbeddings := []
    sceneIdToIdx := fun _ => none
    allSceneIds := []
    characterMap := []
    translations := [] }

/-- A run input with two indexed frames. -/
def twoFrameInputs : RunInputs :=
  { frameEmbeddings := [[(1:ℚ), 0], [0, 1]]
    sceneIdToIdx := fun sid => if sid = 0 then some 0 else if sid = 1 then some 1 else none
    allSceneIds := [0, 1]
    characterMap := []
    translations := [] }

/-- A segment matching no character name, antipodal to both indexed frames. -/
def negSeg2 : Segment := { textMatches := fun _ => false, emb := [-1, -1] }

/-- A run input with a single indexed frame. -/
def oneFrameInputs : RunInputs :=
  { frameEmbeddings := [[(1:ℚ)]]
    sceneIdToIdx := fun sid => if sid = 0 then some 0 else none
    allSceneIds := [0]
    characterMap := []
    translations := [] }

/-- A segment matching no character name, antipodal to the single frame. -/
def negSeg : Segment := { textMatches := fun _ => false, emb := [-1] }

/-- A segment matching no character name, aligned with the single frame. -/
def posSeg : Segment := { textMatches := fun _ => false, emb := [1] }

theorem insertAsc_perm (fs : List ℚ) (i : Nat) (l : List Nat) :
    (insertAsc fs i l).Perm (i :: l) := by
  induction l with
  | nil => simp [insertAsc]
  | cons j rest ih =>
      rw [insertAsc]
      split
      · exact List.Perm.refl _
      · exact (ih.cons j).trans (List.Perm.swap i j rest)

theorem insertAsc_pairwise (fs : List ℚ) (i : Nat) (l : List Nat)
    (hlt : ∀ j ∈ l, i < j)
    (hp : l.Pairwise (fun a b => rank_before fs b a)) :
    (insertAsc fs i l).Pairwise (fun a b => rank_before fs b a) := by
  induction l with
  | nil => simp [insertAsc, rank_before]
  | cons j rest ih =>
      rcases List.pairwise_cons.1 hp with ⟨hj, hrest⟩
      rw [insertAsc]
      split
      · rename_i hle
        refine List.pairwise_cons.2 ⟨?_, hp⟩
        intro b hb
        have hib : i < b := hlt b hb
        have hfs : fs.getD i 0 ≤ fs.getD b 0 := by
          rcases List.mem_cons.1 hb with rfl | hb'
          · exact hle
          · rcases hj b hb' with h | ⟨h, _⟩
            · exact hle.trans h.le
            · exact hle.trans h.ge
        rcases lt_or_eq_of_le hfs with h | h
        · exact Or.inl h
        · exact Or.inr ⟨h.symm, hib⟩
      · rename_i hgt
        push_neg at hgt
        refine List.pairwise_cons.2 ⟨?_, ih (fun k hk => hlt k (List.mem_cons_of_mem j hk)) hrest⟩
        intro b hb
        rcases List.mem_cons.1 ((insertAsc_perm fs i rest).mem_iff.1 hb) with rfl | hb'
        · exact Or.inl hgt
        · exact hj b hb'

theorem foldr_insertAsc_spec (fs : List ℚ) :
    ∀ l : List Nat, l.Pairwise (· < ·) →
      (l.foldr (insertAsc fs) []).Perm l ∧
        (l.foldr (insertAsc fs) []).Pairwise (fun a b => rank_before fs b a) := by
  intro l
  induction l with
  | nil => simp
  | cons i t ih =>
      intro hp
      rcases List.pairwise_cons.1 hp with ⟨hi, ht⟩
      rcases ih ht with ⟨hperm, hpw⟩
      refine ⟨(insertAsc_perm fs i _).trans (hperm.cons i), ?_⟩
      refine insertAsc_pairwise fs i _ ?_ hpw
      intro j hj
      exact hi j (hperm.mem_iff.1 hj)

theorem argmax_go_spec (f : Nat → ℚ) :
    ∀ (xs : List ℚ) (best : Nat) (bv : ℚ) (i : Nat),
      f best = bv → (∀ k, k < xs.length → f (i + k) = xs.getD k 0) →
      f (argmax_go best bv i xs).1 = (argmax_go best bv i xs).2 ∧
        bv ≤ (argmax_go best bv i xs).2 ∧
        ∀ x ∈ xs, x ≤ (argmax_go best bv i xs).2 := by
  intro xs
  induction xs with
  | nil =>
      intro best bv i hb _
      exact ⟨hb, le_refl _, by simp⟩
  | cons x xs ih =>
      intro best bv i hb hk
      have hfi : f i = x := by simpa using hk 0 (by simp)
      have hshift : ∀ k, k < xs.length → f (i + 1 + k) = xs.getD k 0 := by
        intro k hkl
        have h1 := hk (k + 1) (by simpa using Nat.succ_lt_succ hkl)
        have h2 : i + (k + 1) = i + 1 + k := by omega
        rw [h2] at h1
        simpa using h1
      rw [argmax_go]
      split
      · rename_i hlt
        obtain ⟨h1, h2, h3⟩ := ih i x (i + 1) hfi hshift
        refine ⟨h1, (le_of_lt hlt).trans h2, ?_⟩
        intro y hy
        rcases List.mem_cons.1 hy with rfl | hy'
        · exact h2
        · exact h3 y hy'
      · rename_i hge
        push_neg at hge
        obtain ⟨h1, h2, h3⟩ := ih best bv (i + 1) hb hshift
        refine ⟨h1, h2, ?_⟩
        intro y hy
        rcases List.mem_cons.1 hy with rfl | hy'
        · exact hge.trans h2
        · exact h3 y hy'

theorem argmax_max (l : List ℚ) (hl : l ≠ []) :
    ∀ j, j < l.length → l.getD j 0 ≤ l.getD (argmax l) 0 := by
  match l with
  | [] => exact absurd rfl hl
  | x :: xs =>
      have hinv : ∀ k, k < xs.length → (x :: xs).getD (1 + k) 0 = xs.getD k 0 := by
        intro k hk
        rw [Nat.add_comm]
        exact List.getD_cons_succ
      obtain ⟨h1, h2, h3⟩ := argmax_go_spec (fun j => (x :: xs).getD j 0) xs 0 x 1 rfl hinv
      intro j hj
      rw [argmax]
      rw [h1]
      cases j with
      | zero => simpa using h2
      | succ k =>
          have hk : k < xs.length := by simpa using hj
          have : (x :: xs).getD (k + 1) 0 = xs.getD k 0 := List.getD_cons_succ
          rw [this]
          rw [List.getD_eq_getElem _ _ hk]
          exact h3 _ (List.getElem_mem hk)

theorem candidates_survive (fs : List ℚ) (s : MatcherState) (cd pos : Nat)
    (poolIndices : List Nat) (c : Nat × ℚ)
    (hc : c ∈ candidates_of fs s cd pos poolIndices) :
    survives s cd pos c.1 = true := by
  rw [candidates_of] at hc
  rcases List.mem_map.1 hc with ⟨p, hp, rfl⟩
  rw [ranked_positions] at hp
  have hmem : p ∈ List.filter (fun q => survives s cd pos (poolIndices.getD q 0))
      (sorted_indices fs) := List.take_subset _ _ hp
  simpa using (List.mem_filter.1 hmem).2

theorem usage_val_commit (s : MatcherState) (r pos i : Nat) :
    usage_val (commit_choice s r pos) i =
      usage_val s i + (if i = r then 1 else 0) := by
  by_cases h : i = r
  · subst h
    simp [usage_val, commit_choice]
  · simp [usage_val, commit_choice, h]

theorem find_best_spec (pick : Nat) (s : MatcherState) (textEmb : Vec)
    (poolEmbeddings : List Vec) (poolIndices : List Nat) (pos : Nat)
    (c : Choice) (s' : MatcherState)
    (h : find_best_match_with_rotation pick s textEmb poolEmbeddings poolIndices pos =
      some (c, s')) :
    (c.viaFallback = false → usage_val s c.realIdx < max_frame_usage)
    ∧ s' = commit_choice s c.realIdx pos := by
  rw [find_best_match_with_rotation] at h
  by_cases hc : (candidates_of
      (final_scores s.lastSelectedFrameIdx poolIndices (base_scores poolEmbeddings textEmb)) s
      (dynamic_cooldown poolIndices.length) pos poolIndices).isEmpty
  · rw [if_pos hc] at h
    by_cases hf : (final_scores s.lastSelectedFrameIdx poolIndices
        (base_scores poolEmbeddings textEmb)).isEmpty
    · rw [if_pos hf] at h
      exact absurd h (by simp)
    · rw [if_neg hf] at h
      obtain ⟨hcc, hss⟩ := Prod.mk.injEq .. ▸ (Option.some.injEq .. ▸ h)
      refine ⟨?_, ?_⟩
      · intro hfb
        rw [← hcc] at hfb
        simp at hfb
      · rw [← hss, ← hcc]
  · rw [if_neg hc] at h
    by_cases hw : (sampling_weights (candidates_of
        (final_scores s.lastSelectedFrameIdx poolIndices (base_scores poolEmbeddings textEmb)) s
        (dynamic_cooldown poolIndices.length) pos poolIndices)).sum ≤ 0
    · rw [if_pos hw] at h
      exact absurd h (by simp)
    · rw [if_neg hw] at h
      obtain ⟨hcc, hss⟩ := Prod.mk.injEq .. ▸ (Option.some.injEq .. ▸ h)
      have hne : candidates_of
          (final_scores s.lastSelectedFrameIdx poolIndices (base_scores poolEmbeddings textEmb)) s
          (dynamic_cooldown poolIndices.length) pos poolIndices ≠ [] := by
        simpa [List.isEmpty_iff] using hc
      have hlen : 0 < (candidates_of
          (final_scores s.lastSelectedFrameIdx poolIndices (base_scores poolEmbeddings textEmb)) s
          (dynamic_cooldown poolIndices.length) pos poolIndices).length :=
        List.length_pos.2 hne
      have hmem : (candidates_of
          (final_scores s.lastSelectedFrameIdx poolIndices (base_scores poolEmbeddings textEmb)) s
          (dynamic_cooldown poolIndices.length) pos poolIndices).getD
            (pick % (candidates_of
              (final_scores s.lastSelectedFrameIdx poolIndices (base_scores poolEmbeddings textEmb)) s
              (dynamic_cooldown poolIndices.length) pos poolIndices).length) (0, 0) ∈
          candidates_of
            (final_scores s.lastSelectedFrameIdx poolIndices (base_scores poolEmbeddings textEmb)) s
            (dynamic_cooldown poolIndices.length) pos poolIndices := by
        rw [List.getD_eq_getElem _ _ (Nat.mod_lt _ hlen)]
        exact List.getElem_mem _
      have hsurv := candidates_survive _ _ _ _ _ _ hmem
      rw [survives, Bool.and_eq_true] at hsurv
      constructor
      · intro _
        rw [← hcc]
        exact of_decide_eq_true hsurv.1
      · rw [← hss, ← hcc]

theorem match_step_spec (pick : Nat) (inp : RunInputs) (seg : Segment)
    (idx : Nat) (s : MatcherState) (r : MatchResult) (s' : MatcherState)
    (h : match_step pick inp seg idx s = (some r, s')) :
    (r.viaFallback = false → usage_val s r.frameIndex < max_frame_usage)
    ∧ ∀ i, usage_val s' i = usage_val s i + (if i = r.frameIndex then 1 else 0) := by
  rw [match_step] at h
  rcases hfb : find_best_match_with_rotation pick
      { s with activeCharacter :=
          (get_search_pool inp.translations seg.textMatches inp.characterMap
            inp.allSceneIds s.activeCharacter).2.2 }
      seg.emb
      ((if ((get_search_pool inp.translations seg.textMatches inp.characterMap
              inp.allSceneIds s.activeCharacter).1.filterMap inp.sceneIdToIdx).isEmpty then
          List.range inp.frameEmbeddings.length
        else
          (get_search_pool inp.translations seg.textMatches inp.characterMap
            inp.allSceneIds s.activeCharacter).1.filterMap inp.sceneIdToIdx).map
        (fun i => inp.frameEmbeddings.getD i []))
      (if ((get_search_pool inp.translations seg.textMatches inp.characterMap
              inp.allSceneIds s.activeCharacter).1.filterMap inp.sceneIdToIdx).isEmpty then
        List.range inp.frameEmbeddings.length
      else
        (get_search_pool inp.translations seg.textMatches inp.characterMap
          inp.allSceneIds s.activeCharacter).1.filterMap inp.sceneIdToIdx)
      idx with c2 | ⟨c, s2⟩
  · rw [hfb] at h
    exact absurd h (by simp)
  · rw [hfb] at h
    simp only [Prod.mk.injEq, Option.some.injEq] at h
    obtain ⟨hr, hs⟩ := h
    obtain ⟨hcap, hcommit⟩ := find_best_spec _ _ _ _ _ _ _ _ hfb
    have husage : ∀ i, usage_val s2 i =
        usage_val s i + (if i = c.realIdx then 1 else 0) := by
      intro i
      rw [hcommit]
      exact usage_val_commit _ _ _ _
    constructor
    · intro hnf
      rw [← hr] at hnf ⊢
      exact hcap hnf
    · intro i
      rw [← hs, ← hr]
      exact husage i

theorem times_chosen_append_single (i : Nat) (l : List MatchResult) (r : MatchResult) :
    times_chosen i (l ++ [r]) = times_chosen i l + (if i = r.frameIndex then 1 else 0) := by
  rw [times_chosen, times_chosen, List.filter_append, List.length_append]
  congr 1
  by_cases h : i = r.frameIndex
  · simp [List.filter, h]
  · have hb : (r.frameIndex == i) = false := by
      rw [beq_eq_false_iff_ne]
      exact fun hh => h hh.symm
    simp [List.filter, hb, h]

theorem match_loop_usage_cap (picks : Nat → Nat) (inp : RunInputs) :
    ∀ (segs : List Segment) (idx : Nat) (s : MatcherState) (done : List MatchResult)
      (rs : List MatchResult) (sF : MatcherState),
      (∀ i, usage_val s i = times_chosen i done) →
      match_loop picks inp segs idx s = (some rs, sF) →
      ∀ (t : Nat) (ht : t < rs.length),
        (rs.get ⟨t, ht⟩).viaFallback = false →
        times_chosen (rs.get ⟨t, ht⟩).frameIndex (done ++ rs.take t) < max_frame_usage := by
  intro segs
  induction segs with
  | nil =>
      intro idx s done rs sF hinv hrun t ht hnf
      rw [match_loop] at hrun
      obtain ⟨hrs, _⟩ := Prod.mk.injEq .. ▸ hrun
      obtain rfl : ([] : List MatchResult) = rs := Option.some.inj hrs
      exact absurd ht (by simp)
  | cons seg rest ih =>
      intro idx s done rs sF hinv hrun t ht hnf
      rw [match_loop] at hrun
      rcases hstep : match_step (picks idx) inp seg idx s with ⟨o, s1⟩
      rw [hstep] at hrun
      cases o with
      | none => exact absurd hrun (by simp)
      | some r =>
          dsimp only [] at hrun
          rcases hrest : match_loop picks inp rest (idx + 1) s1 with ⟨o2, s2⟩
          rw [hrest] at hrun
          cases o2 with
          | none => exact absurd hrun (by simp)
          | some rs' =>
              simp only [Prod.mk.injEq, Option.some.injEq] at hrun
              obtain ⟨hrs, hsf⟩ := hrun
              subst hrs
              obtain ⟨hcap, hupd⟩ := match_step_spec _ _ _ _ _ _ _ hstep
              cases t with
              | zero =>
                  simp only [List.get, List.take_zero, List.append_nil]
                  have h0 := hcap hnf
                  rw [hinv r.frameIndex] at h0
                  exact h0
              | succ t' =>
                  have ht' : t' < rs'.length := by simpa using ht
                  have hinv' : ∀ i, usage_val s1 i = times_chosen i (done ++ [r]) := by
                    intro i
                    rw [hupd i, times_chosen_append_single, hinv i]
                  have hrec := ih (idx + 1) s1 (done ++ [r]) rs' s2 hinv' hrest t' ht'
                    (by simpa using hnf)
                  have hshape : done ++ (r :: rs').take (t' + 1) =
                      (done ++ [r]) ++ rs'.take t' := by
                    simp [List.take_succ_cons, List.append_assoc]
                  simp only [List.get] at hrec ⊢
                  rw [hshape]
                  exact hrec

/-- C1: with a prior selection the continuity bonus of `0.05` is added exactly
once to a candidate's base score iff its distance to the last-selected frame is
strictly between `5` and `48`; without a prior selection scores are unchanged. -/
theorem continuity_bonus_boundary :
    (∀ (last : Nat) (poolIndices : List Nat) (bscores : List ℚ) (i : Nat),
        i < poolIndices.length → i < bscores.length →
        (final_scores (some last) poolIndices bscores).getD i 0 =
          bscores.getD i 0 +
            (if 5 < continuity_dist (poolIndices.getD i 0) last ∧
                continuity_dist (poolIndices.getD i 0) last < scene_continuity_window then
              continuity_bonus
            else 0))
    ∧ ∀ (poolIndices : List Nat) (bscores : List ℚ),
        final_scores none poolIndices bscores = bscores := by
  constructor
  · intro last pis bs i hi hb
    have hz : i < (List.zip pis bs).length := by
      rw [List.length_zip]; omega
    rw [final_scores]
    rw [List.getD_eq_getElem _ _ (by simpa using hz)]
    rw [List.getElem_map, List.getElem_zip]
    rw [List.getD_eq_getElem _ _ hi, List.getD_eq_getElem _ _ hb]
    split
    · simp
    · simp
  · intro pis bs
    rfl

theorem continuity_bonus_boundary_witness :
    (final_scores (some 10) [16] [(1:ℚ)]).getD 0 0 = 1 + continuity_bonus := by
  have h := continuity_bonus_boundary.1 10 [16] [(1:ℚ)] 0 (by norm_num) (by norm_num)
  norm_num [continuity_dist, scene_continuity_window] at h
  exact h

/-- C2: a candidate survives the usage filter iff its usage count is strictly
below the cap of 3 and it was either never used or last used at least the
dynamic cooldown ago, the dynamic cooldown being `max 5 (min 20 (n / 10))`. -/
theorem usage_filter_characterisation (s : MatcherState) (n p i : Nat) :
    (survives s (dynamic_cooldown n) p i = true ↔
      usage_val s i < 3 ∧
        (s.frameLastUsedAt i = none ∨
          ∃ l, s.frameLastUsedAt i = some l ∧ l + dynamic_cooldown n ≤ p))
    ∧ dynamic_cooldown n = max 5 (min 20 (n / 10)) := by
  refine ⟨?_, rfl⟩
  have hcd : dynamic_cooldown n ≤ 20 := by unfold dynamic_cooldown; omega
  unfold survives last_used_val max_frame_usage
  cases h : s.frameLastUsedAt i with
  | none =>
      simp only [h, Bool.and_eq_true, decide_eq_true_iff, Int.ofNat_eq_coe]
      constructor
      · rintro ⟨h1, _⟩
        exact ⟨h1, Or.inl trivial⟩
      · rintro ⟨h1, _⟩
        refine ⟨h1, ?_⟩
        omega
  | some l =>
      simp only [h, Bool.and_eq_true, decide_eq_true_iff, Option.some.injEq,
        reduceCtorEq, false_or, Int.ofNat_eq_coe]
      constructor
      · rintro ⟨h1, h2⟩
        exact ⟨h1, l, rfl, by omega⟩
      · rintro ⟨h1, l', hl', h2⟩
        cases hl'
        exact ⟨h1, by omega⟩

/-- C3 (amended): the ranking is by descending final score, equal scores being
ranked in reverse pool order, and the candidate set is the first
`top_candidates_pool` survivors in that ranking. -/
theorem ranking_order (fs : List ℚ) (s : MatcherState) (cd pos : Nat)
    (poolIndices : List Nat) :
    (sorted_indices fs).Perm (List.range fs.length)
    ∧ (sorted_indices fs).Pairwise (rank_before fs)
    ∧ (ranked_positions fs s cd pos poolIndices).Pairwise (rank_before fs)
    ∧ (ranked_positions fs s cd pos poolIndices).length ≤ top_candidates_pool
    ∧ (ranked_positions fs s cd pos poolIndices).all
        (fun p => survives s cd pos (poolIndices.getD p 0)) = true := by
  obtain ⟨hperm, hpw⟩ :=
    foldr_insertAsc_spec fs (List.range fs.length) (List.pairwise_lt_range _)
  have hsub : List.Sublist (ranked_positions fs s cd pos poolIndices) (sorted_indices fs) :=
    (List.take_sublist _ _).trans (List.filter_sublist _)
  have h2 : (sorted_indices fs).Pairwise (rank_before fs) := by
    rw [sorted_indices, List.pairwise_reverse]
    exact hpw
  refine ⟨(List.reverse_perm _).trans hperm, h2, h2.sublist hsub, List.length_take_le _ _, ?_⟩
  rw [List.all_eq_true]
  intro p hp
  rw [ranked_positions] at hp
  have hmem : p ∈ List.filter (fun q => survives s cd pos (poolIndices.getD q 0))
      (sorted_indices fs) := List.take_subset _ _ hp
  simpa using (List.mem_filter.1 hmem).2

/-- C3 (counterexample): two candidates with equal final scores are ranked with
the later pool position first, so the head of `candidates` is not the
earlier-pool candidate. -/
theorem tie_break_counterexample :
    candidates_of [(1:ℚ), 1] initialState (dynamic_cooldown 2) 0 [7, 8] =
        [(8, 1), (7, 1)] ∧
      (candidates_of [(1:ℚ), 1] initialState (dynamic_cooldown 2) 0 [7, 8]).head? ≠
        some (7, 1) := by
  have h : candidates_of [(1:ℚ), 1] initialState (dynamic_cooldown 2) 0 [7, 8] =
      [(8, 1), (7, 1)] := by
    norm_num [candidates_of, ranked_positions, sorted_indices, argsort, insertAsc,
      List.range_succ, survives, usage_val, last_used_val, initialState,
      max_frame_usage, dynamic_cooldown, top_candidates_pool]
  refine ⟨h, ?_⟩
  rw [h]
  norm_num

/-- C4 (code bug): the weights handed to `random.choices` are the raw candidate
scores, so a surviving candidate with negative cosine score yields a negative
sampling weight, and with all weights nonpositive `random.choices` raises
`ValueError` (modelled by `none`). -/
theorem sampling_weights_negative :
    sampling_weights (candidates_of
        (final_scores initialState.lastSelectedFrameIdx [0] (base_scores [[(1:ℚ)]] [-1]))
        initialState (dynamic_cooldown 1) 0 [0]) = [-1]
    ∧ ((-1:ℚ) < 0)
    ∧ find_best_match_with_rotation 0 initialState [-1] [[(1:ℚ)]] [0] 0 = none := by
  refine ⟨?_, by norm_num, ?_⟩
  · norm_num [sampling_weights, candidates_of, ranked_positions, sorted_indices, argsort,
      insertAsc, List.range_succ, survives, usage_val, last_used_val, initialState,
      max_frame_usage, dynamic_cooldown, top_candidates_pool, base_scores, dot, final_scores]
  · norm_num [find_best_match_with_rotation, candidates_of, ranked_positions, sorted_indices,
      argsort, insertAsc, List.range_succ, survives, usage_val, last_used_val, initialState,
      max_frame_usage, dynamic_cooldown, top_candidates_pool, base_scores, dot,
      final_scores, sampling_weights]

/-- C5 (amended part): with an empty embedding index the run fails immediately
and the state is returned exactly as it was — no partial mutation. -/
theorem empty_index_fatal (picks : Nat → Nat) (inp : RunInputs)
    (segments : List Segment) (s0 : MatcherState)
    (h : inp.frameEmbeddings = []) :
    match_audio_to_frames picks inp segments s0 = (none, s0) := by
  rw [match_audio_to_frames, if_pos (by simp [h])]

theorem empty_index_fatal_witness :
    match_audio_to_frames (fun _ => 0) emptyIndexInputs [] initialState =
      (none, initialState) :=
  empty_index_fatal (fun _ => 0) emptyIndexInputs [] initialState rfl

theorem second_fatal_path :
    twoFrameInputs.frameEmbeddings ≠ [] ∧
      (match_audio_to_frames (fun _ => 0) twoFrameInputs [negSeg2] initialState).1 = none := by
  have hpool : get_search_pool twoFrameInputs.translations negSeg2.textMatches
      twoFrameInputs.characterMap twoFrameInputs.allSceneIds initialState.activeCharacter =
      ([0, 1], ⟨ContextKind.noContext, false⟩, none) := by
    simp [get_search_pool, extract_character_names, twoFrameInputs, negSeg2, initialState]
  have hfm : List.filterMap twoFrameInputs.sceneIdToIdx [0, 1] = [0, 1] := by
    simp [twoFrameInputs]
  have hfb : find_best_match_with_rotation 0 { initialState with activeCharacter := none }
      [-1, -1] [[(1:ℚ), 0], [0, 1]] [0, 1] 0 = none := by
    norm_num [find_best_match_with_rotation, candidates_of, ranked_positions, sorted_indices,
      argsort, insertAsc, List.range_succ, survives, usage_val, last_used_val, initialState,
      max_frame_usage, dynamic_cooldown, top_candidates_pool, base_scores, dot,
      final_scores, sampling_weights]
  have hemb : negSeg2.emb = [-1, -1] := rfl
  have hstep : match_step 0 twoFrameInputs negSeg2 0 initialState = (none, initialState) := by
    rw [match_step, hpool]
    simp only [hemb, hfm, List.isEmpty_cons, Bool.false_eq_true, if_false]
    have hmap : List.map (fun i => twoFrameInputs.frameEmbeddings.getD i []) [0, 1] =
        [[(1:ℚ), 0], [0, 1]] := by
      simp [twoFrameInputs]
    rw [hmap, hfb]
    rfl
  have hloop : match_loop (fun _ => 0) twoFrameInputs [negSeg2] 0 initialState =
      (none, initialState) := by
    rw [match_loop, hstep]
  refine ⟨by simp [twoFrameInputs], ?_⟩
  rw [match_audio_to_frames, if_neg (by simp [twoFrameInputs]), hloop]

/-- C6: when no candidate survives the usage/cooldown filter but the score
vector is non-empty, the selector returns the first highest-scored pool entry,
ignoring the ledger entirely, and that pick maximises the final scores. -/
theorem exhaustion_fallback (pick : Nat) (s : MatcherState) (textEmb : Vec)
    (poolEmbeddings : List Vec) (poolIndices : List Nat) (currentChunkIdx : Nat)
    (hcands : candidates_of (selector_scores s textEmb poolEmbeddings poolIndices) s
        (dynamic_cooldown poolIndices.length) currentChunkIdx poolIndices = [])
    (hne : selector_scores s textEmb poolEmbeddings poolIndices ≠ []) :
    find_best_match_with_rotation pick s textEmb poolEmbeddings poolIndices currentChunkIdx =
      some
        (⟨poolIndices.getD (argmax (selector_scores s textEmb poolEmbeddings poolIndices)) 0,
            (selector_scores s textEmb poolEmbeddings poolIndices).getD
              (argmax (selector_scores s textEmb poolEmbeddings poolIndices)) 0,
            true⟩,
          commit_choice s
            (poolIndices.getD (argmax (selector_scores s textEmb poolEmbeddings poolIndices)) 0)
            currentChunkIdx)
    ∧ ∀ j, j < (selector_scores s textEmb poolEmbeddings poolIndices).length →
        (selector_scores s textEmb poolEmbeddings poolIndices).getD j 0 ≤
          (selector_scores s textEmb poolEmbeddings poolIndices).getD
            (argmax (selector_scores s textEmb poolEmbeddings poolIndices)) 0 := by
  constructor
  · rw [find_best_match_with_rotation]
    rw [selector_scores] at hcands hne
    simp only [hcands, List.isEmpty_nil, if_true]
    rw [if_neg (by simpa using hne)]
    rfl
  · exact argmax_max _ hne

theorem exhaustion_fallback_witness :
    find_best_match_with_rotation 0 cappedState [(1:ℚ)] [[(1:ℚ)]] [0] 0 =
      some (⟨0, 1, true⟩, commit_choice cappedState 0 0) := by
  have h := exhaustion_fallback 0 cappedState [(1:ℚ)] [[(1:ℚ)]] [0] 0
    (by norm_num [candidates_of, ranked_positions, sorted_indices, argsort, insertAsc,
      List.range_succ, survives, usage_val, last_used_val, cappedState, initialState,
      max_frame_usage, dynamic_cooldown, top_candidates_pool, base_scores, dot,
      final_scores, selector_scores])
    (by norm_num [selector_scores, final_scores, base_scores, dot, cappedState, initialState])
  rw [h.1]
  norm_num [selector_scores, final_scores, base_scores, dot, cappedState, initialState,
    argmax, argmax_go]

/-- C7: in a run started from the initial state, any pick that did not come
from the exhaustion fallback was of a frame chosen fewer than 3 times before —
equivalently, every pick beyond a frame's third is produced by the fallback. -/
theorem usage_cap_invariant (picks : Nat → Nat) (inp : RunInputs)
    (segs : List Segment) (rs : List MatchResult)
    (hrun : (match_audio_to_frames picks inp segs initialState).1 = some rs)
    (t : Nat) (ht : t < rs.length)
    (hnf : (rs.get ⟨t, ht⟩).viaFallback = false) :
    times_chosen (rs.get ⟨t, ht⟩).frameIndex (rs.take t) < max_frame_usage := by
  rw [match_audio_to_frames] at hrun
  by_cases he : inp.frameEmbeddings.isEmpty
  · rw [if_pos he] at hrun
    exact absurd hrun (by simp)
  · rw [if_neg he] at hrun
    have hpair : match_loop picks inp segs 0 initialState =
        (some rs, (match_loop picks inp segs 0 initialState).2) := by
      have heta : match_loop picks inp segs 0 initialState =
          ((match_loop picks inp segs 0 initialState).1,
            (match_loop picks inp segs 0 initialState).2) := rfl
      rw [heta] at hrun ⊢
      rw [hrun]
    have hmain := match_loop_usage_cap picks inp segs 0 initialState [] rs
      (match_loop picks inp segs 0 initialState).2 (fun i => rfl) hpair t ht hnf
    simpa using hmain

theorem usage_cap_invariant_witness :
    times_chosen 0 ([] : List MatchResult) < max_frame_usage := by
  have hpool : get_search_pool oneFrameInputs.translations posSeg.textMatches
      oneFrameInputs.characterMap oneFrameInputs.allSceneIds initialState.activeCharacter =
      ([0], ⟨ContextKind.noContext, false⟩, none) := by
    simp [get_search_pool, extract_character_names, oneFrameInputs, posSeg, initialState]
  have hfm : List.filterMap oneFrameInputs.sceneIdToIdx [0] = [0] := by
    simp [oneFrameInputs]
  have hfb : find_best_match_with_rotation 0 { initialState with activeCharacter := none }
      [1] [[(1:ℚ)]] [0] 0 =
      some (⟨0, 1, false⟩,
        commit_choice { initialState with activeCharacter := none } 0 0) := by
    norm_num [find_best_match_with_rotation, candidates_of, ranked_positions, sorted_indices,
      argsort, insertAsc, List.range_succ, survives, usage_val, last_used_val, initialState,
      max_frame_usage, dynamic_cooldown, top_candidates_pool, base_scores, dot,
      final_scores, sampling_weights]
  have hemb : posSeg.emb = [1] := rfl
  have hstep : match_step 0 oneFrameInputs posSeg 0 initialState =
      (some ⟨0, 1, 0, 1, false⟩,
        commit_choice { initialState with activeCharacter := none } 0 0) := by
    rw [match_step, hpool]
    simp only [hemb, hfm, List.isEmpty_cons, Bool.false_eq_true, if_false]
    have hmap : List.map (fun i => oneFrameInputs.frameEmbeddings.getD i []) [0] =
        [[(1:ℚ)]] := by
      simp [oneFrameInputs]
    rw [hmap, hfb]
    rfl
  have hloop : match_loop (fun _ => 0) oneFrameInputs [posSeg] 0 initialState =
      (some [⟨0, 1, 0, 1, false⟩],
        commit_choice { initialState with activeCharacter := none } 0 0) := by
    rw [match_loop, hstep]
    rfl
  have hrun : (match_audio_to_frames (fun _ => 0) oneFrameInputs [posSeg] initialState).1 =
      some [⟨0, 1, 0, 1, false⟩] := by
    rw [match_audio_to_frames, if_neg (by simp [oneFrameInputs]), hloop]
  have h := usage_cap_invariant (fun _ => 0) oneFrameInputs [posSeg] [⟨0, 1, 0, 1, false⟩]
    hrun 0 (by simp) rfl
  simpa using h

/-- C8: the context tracker takes the first extracted name as new active
character (switch/confirm), holds the previous one when no name is found, and
pools from the active character's scene list with an annotated fallback to all
scenes exactly when that list is empty. -/
theorem context_tracker_spec (translations : List (String × String))
    (textMatches : String → Bool) (characterMap : List (String × List Nat))
    (allSceneIds : List Nat) (active : Option String) :
    (∀ c rest,
        extract_character_names translations textMatches
            ((characterMap.map Prod.fst).filter (fun x => x ≠ "none")) = c :: rest →
        (get_search_pool translations textMatches characterMap allSceneIds active).2.2 =
            some c ∧
          (get_search_pool translations textMatches characterMap allSceneIds active).2.1.kind =
            (if some c = active then ContextKind.chConfirm else ContextKind.chSwitch))
    ∧ (extract_character_names translations textMatches
            ((characterMap.map Prod.fst).filter (fun x => x ≠ "none")) = [] →
        ∀ c, active = some c →
          (get_search_pool translations textMatches characterMap allSceneIds active).2.2 =
              some c ∧
            (get_search_pool translations textMatches characterMap allSceneIds active).2.1.kind =
              ContextKind.chHold)
    ∧ ∀ c,
        (get_search_pool translations textMatches characterMap allSceneIds active).2.2 =
            some c →
        ((characterMap.lookup c).getD [] ≠ [] →
            (get_search_pool translations textMatches characterMap allSceneIds active).1 =
                (characterMap.lookup c).getD [] ∧
              (get_search_pool translations textMatches characterMap allSceneIds
                  active).2.1.poolEmptyFallback = false)
        ∧ ((characterMap.lookup c).getD [] = [] →
            (get_search_pool translations textMatches characterMap allSceneIds active).1 =
                allSceneIds ∧
              (get_search_pool translations textMatches characterMap allSceneIds
                  active).2.1.poolEmptyFallback = true) := by
  refine ⟨?_, ?_, ?_⟩
  · intro c rest hm
    rw [get_search_pool.eq_def]
    simp only [hm]
    by_cases ha : some c = active
    · rw [if_pos ha]
      dsimp only []
      constructor
      · split <;> rfl
      · rw [if_pos ha]
        split <;> rfl
    · rw [if_neg ha]
      dsimp only []
      constructor
      · split <;> rfl
      · rw [if_neg ha]
        split <;> rfl
  · intro hm c hc
    subst hc
    rw [get_search_pool.eq_def]
    simp only [hm]
    constructor
    · split <;> rfl
    · split <;> rfl
  · intro c hc
    rw [get_search_pool.eq_def] at hc ⊢
    rcases hm : extract_character_names translations textMatches
        ((characterMap.map Prod.fst).filter (fun x => x ≠ "none")) with _ | ⟨c0, rest⟩
    · simp only [hm] at hc ⊢
      cases active with
      | none =>
          dsimp only [] at hc
          exact absurd hc (by simp)
      | some a =>
          dsimp only [] at hc ⊢
          by_cases hp : ((characterMap.lookup a).getD []).isEmpty
          · rw [if_pos hp] at hc
            obtain rfl : a = c := by simpa using hc
            rw [if_pos hp]
            have hpe : (characterMap.lookup a).getD [] = [] := List.isEmpty_iff.1 hp
            exact ⟨fun hne => absurd hpe hne, fun _ => ⟨rfl, rfl⟩⟩
          · rw [if_neg hp] at hc
            obtain rfl : a = c := by simpa using hc
            rw [if_neg hp]
            have hpe : (characterMap.lookup a).getD [] ≠ [] := by
              simpa [List.isEmpty_iff] using hp
            exact ⟨fun _ => ⟨rfl, rfl⟩, fun hne => absurd hne hpe⟩
    · simp only [hm] at hc ⊢
      by_cases ha : some c0 = active
      · rw [if_pos ha] at hc ⊢
        dsimp only [] at hc ⊢
        by_cases hp : ((characterMap.lookup c0).getD []).isEmpty
        · rw [if_pos hp] at hc
          obtain rfl : c0 = c := by simpa using hc
          rw [if_pos hp]
          have hpe : (characterMap.lookup c0).getD [] = [] := List.isEmpty_iff.1 hp
          exact ⟨fun hne => absurd hpe hne, fun _ => ⟨rfl, rfl⟩⟩
        · rw [if_neg hp] at hc
          obtain rfl : c0 = c := by simpa using hc
          rw [if_neg hp]
          have hpe : (characterMap.lookup c0).getD [] ≠ [] := by
            simpa [List.isEmpty_iff] using hp
          exact ⟨fun _ => ⟨rfl, rfl⟩, fun hne => absurd hne hpe⟩
      · rw [if_neg ha] at hc ⊢
        dsimp only [] at hc ⊢
        by_cases hp : ((characterMap.lookup c0).getD []).isEmpty
        · rw [if_pos hp] at hc
          obtain rfl : c0 = c := by simpa using hc
          rw [if_pos hp]
          have hpe : (characterMap.lookup c0).getD [] = [] := List.isEmpty_iff.1 hp
          exact ⟨fun hne => absurd hpe hne, fun _ => ⟨rfl, rfl⟩⟩
        · rw [if_neg hp] at hc
          obtain rfl : c0 = c := by simpa using hc
          rw [if_neg hp]
          have hpe : (characterMap.lookup c0).getD [] ≠ [] := by
            simpa [List.isEmpty_iff] using hp
          exact ⟨fun _ => ⟨rfl, rfl⟩, fun hne => absurd hne hpe⟩

theorem context_tracker_spec_witness :
    (get_search_pool [("miguelito", "miguel")] (fun _ => true)
        [("miguel", [1, 2])] [1, 2, 3] none).2.2 = some ("miguel") ∧
      (get_search_pool [("miguelito", "miguel")] (fun _ => true)
          [("miguel", [1, 2])] [1, 2, 3] none).2.1.kind = ContextKind.chSwitch ∧
      (get_search_pool [("miguelito", "miguel")] (fun _ => true)
          [("miguel", [1, 2])] [1, 2, 3] none).1 = [1, 2] := by
  have hm : extract_character_names [("miguelito", "miguel")] (fun _ => true)
      (([("miguel", [1, 2])].map Prod.fst).filter (fun x => x ≠ "none")) = ["miguel"] := by
    decide
  have h1 := (context_tracker_spec [("miguelito", "miguel")] (fun _ => true)
      [("miguel", [1, 2])] [1, 2, 3] none).1 ("miguel") [] hm
  have h3 := ((context_tracker_spec [("miguelito", "miguel")] (fun _ => true)
      [("miguel", [1, 2])] [1, 2, 3] none).2.2 ("miguel") h1.1).1 (by decide)
  refine ⟨h1.1, ?_, h3.1⟩
  rw [h1.2, if_neg (by simp)]

/-- C9 (code bug): on a valid one-segment input whose only candidate scores
`-1`, `random.choices` receives a nonpositive weight total and raises, so the
run produces no result list at all and the output length invariant fails. -/
theorem output_length_violated :
    (match_audio_to_frames (fun _ => 0) oneFrameInputs [negSeg] initialState).1 = none ∧
      [negSeg].length = 1 := by
  have hpool : get_search_pool oneFrameInputs.translations negSeg.textMatches
      oneFrameInputs.characterMap oneFrameInputs.allSceneIds initialState.activeCharacter =
      ([0], ⟨ContextKind.noContext, false⟩, none) := by
    simp [get_search_pool, extract_character_names, oneFrameInputs, negSeg, initialState]
  have hfm : List.filterMap oneFrameInputs.sceneIdToIdx [0] = [0] := by
    simp [oneFrameInputs]
  have hfb : find_best_match_with_rotation 0 { initialState with activeCharacter := none }
      [-1] [[(1:ℚ)]] [0] 0 = none := by
    norm_num [find_best_match_with_rotation, candidates_of, ranked_positions, sorted_indices,
      argsort, insertAsc, List.range_succ, survives, usage_val, last_used_val, initialState,
      max_frame_usage, dynamic_cooldown, top_candidates_pool, base_scores, dot,
      final_scores, sampling_weights]
  have hemb : negSeg.emb = [-1] := rfl
  have hstep : match_step 0 oneFrameInputs negSeg 0 initialState = (none, initialState) := by
    rw [match_step, hpool]
    simp only [hemb, hfm, List.isEmpty_cons, Bool.false_eq_true, if_false]
    have hmap : List.map (fun i => oneFrameInputs.frameEmbeddings.getD i []) [0] =
        [[(1:ℚ)]] := by
      simp [oneFrameInputs]
    rw [hmap, hfb]
    rfl
  have hloop : match_loop (fun _ => 0) oneFrameInputs [negSeg] 0 initialState =
      (none, initialState) := by
    rw [match_loop, hstep]
  refine ⟨?_, rfl⟩
  rw [match_audio_to_frames, if_neg (by simp [oneFrameInputs]), hloop]

/-- C10: `normalize_vector` divides by the Euclidean norm exactly when that
norm is positive, returns the input unchanged when the norm is zero, and on an
all-zero vector its result is not unit-norm. -/
theorem normalize_vector_spec :
    (∀ v : List ℝ, 0 < Real.sqrt ((v.map (fun x => x ^ 2)).sum) →
        normalize_vector v =
          v.map (fun x => x / Real.sqrt ((v.map (fun y => y ^ 2)).sum)))
    ∧ (∀ v : List ℝ, Real.sqrt ((v.map (fun x => x ^ 2)).sum) = 0 →
        normalize_vector v = v)
    ∧ ∀ v : List ℝ, (∀ x ∈ v, x = 0) →
        Real.sqrt (((normalize_vector v).map (fun x => x ^ 2)).sum) ≠ 1 := by
  refine ⟨?_, ?_, ?_⟩
  · intro v h
    rw [normalize_vector, if_pos h]
  · intro v h
    rw [normalize_vector, if_neg (by rw [h]; exact lt_irrefl 0)]
  · intro v hz
    have hsum : (v.map (fun x => x ^ 2)).sum = 0 := by
      apply List.sum_eq_zero
      intro y hy
      rcases List.mem_map.1 hy with ⟨x, hx, rfl⟩
      rw [hz x hx]
      norm_num
    have hnorm : Real.sqrt ((v.map (fun x => x ^ 2)).sum) = 0 := by
      rw [hsum, Real.sqrt_zero]
    rw [normalize_vector, if_neg (by rw [hnorm]; exact lt_irrefl 0)]
    rw [hsum, Real.sqrt_zero]
    exact zero_ne_one

theorem normalize_vector_spec_witness :
    normalize_vector [(3:ℝ), 4] = [3 / 5, 4 / 5] ∧
      normalize_vector [(0:ℝ), 0] = [0, 0] := by
  have hsum : (([ (3:ℝ), 4 ]).map (fun x => x ^ 2)).sum = 25 := by
    norm_num
  have hsqrt : Real.sqrt ((([ (3:ℝ), 4 ]).map (fun x => x ^ 2)).sum) = 5 := by
    rw [hsum, show (25:ℝ) = 5 ^ 2 by norm_num, Real.sqrt_sq (by norm_num : (0:ℝ) ≤ 5)]
  constructor
  · rw [normalize_vector_spec.1 [(3:ℝ), 4] (by rw [hsqrt]; norm_num)]
    rw [hsqrt]
    norm_num
  · exact normalize_vector_spec.2.1 [(0:ℝ), 0]
      (by rw [show ((([ (0:ℝ), 0 ]).map (fun x => x ^ 2)).sum) = 0 by norm_num, Real.sqrt_zero])

end SmartMatcher
